import Mathlib

/-!
# go-parallel-var-cmds: host parsing, job execution and the job store

A shallow embedding of `internal/executor/executor.go`, `internal/db/db.go`
and the `POST /api/run` handler of `cmd/server/main.go`.

Go strings are embedded as Lean `String`s (valid UTF-8 text); the functions
that walk a string work on its list of characters.  The replaced separators
are single ASCII bytes, which never occur inside a multi-byte UTF-8
sequence, so replacing bytes and replacing characters agree.
-/

namespace Executor

/-! ## Go standard library pieces used by `ParseHosts` -/

/-- The `unicode.IsSpace` predicate of Go, the one `strings.TrimSpace` uses:
the `White_Space` table `U+0009..U+000D`, `U+0020`, `U+0085`, `U+00A0`,
`U+1680`, `U+2000..U+200A`, `U+2028`, `U+2029`, `U+202F`, `U+205F`, `U+3000`. -/
def isSpace (c : Char) : Bool :=
  let n := c.toNat
  (0x09 ≤ n && n ≤ 0x0D) || n == 0x20 || n == 0x85 || n == 0xA0 || n == 0x1680 ||
  (0x2000 ≤ n && n ≤ 0x200A) || n == 0x2028 || n == 0x2029 || n == 0x202F ||
  n == 0x205F || n == 0x3000

/-- The `strings.TrimSpace` function on a list of characters: leading and
trailing white space removed. -/
def trimSpace (l : List Char) : List Char :=
  ((l.dropWhile isSpace).reverse.dropWhile isSpace).reverse

/-- The replacement table `strings.NewReplacer(",", "\n", " ", "\n", "\r", "\n")`
as (old, new) pairs in argument order. -/
def replacerPairs : List (Char × Char) :=
  [(',', '\n'), (' ', '\n'), ('\r', '\n')]

/-- The method `(*strings.Replacer).Replace` for single-character pairs: every
character that is an `old` of the table becomes the `new` of its first pair,
every other character is kept. -/
def Replace (pairs : List (Char × Char)) (l : List Char) : List Char :=
  l.map (fun c => (pairs.lookup c).getD c)

/-- The constant `bufio.MaxScanTokenSize`: the size in bytes of the largest
buffer a `bufio.Scanner` allocates. -/
def MaxScanTokenSize : Nat := 64 * 1024

/-- Length in bytes of the UTF-8 encoding of a list of characters. -/
def utf8Len (l : List Char) : Nat :=
  (l.map Char.utf8Size).sum

/-- The lines of the input as `bufio.ScanLines` cuts them: the text between
newlines, where a last line without newline counts when it is non-empty and
the empty text after a final newline does not. -/
def splitLines : List Char → List (List Char)
  | [] => []
  | c :: cs =>
    if c = '\n' then [] :: splitLines cs
    else
      match splitLines cs with
      | [] => [[c]]
      | l :: ls => (c :: l) :: ls

/-- The helper `dropCR` of `bufio.ScanLines`: a final carriage return of the
line is dropped. -/
def dropCR (l : List Char) : List Char :=
  if l.getLast? = some '\r' then l.dropLast else l

/-- The tokens that successive `scanner.Scan()` calls yield for a default
`bufio.NewScanner` (split function `ScanLines`, buffer limit
`MaxScanTokenSize`) until `Scan` returns false.  A line fits the buffer when
its bytes are fewer than `MaxScanTokenSize`; at the first line that does not
fit `Scan` sets `ErrTooLong` and returns false, so that line and everything
after it yield no token. -/
def scanTokens (data : List Char) : List (List Char) :=
  ((splitLines data).takeWhile (fun l => decide (utf8Len l < MaxScanTokenSize))).map dropCR

/-- The function `strings.Join` on lists of characters. -/
def joinChars (sep : List Char) : List (List Char) → List Char
  | [] => []
  | [x] => x
  | x :: y :: rest => x ++ sep ++ joinChars sep (y :: rest)

/-- The function `strings.Join(elems, sep)`. -/
def Join (elems : List String) (sep : String) : String :=
  String.mk (joinChars sep.data (elems.map String.data))

/-! ## `ParseHosts` -/

/-- The body of `ParseHosts` on lists of characters: the separators are
replaced by newlines, the scanner walks the lines, each line is trimmed and
the non-empty ones are appended to `hosts`. -/
def parseHostsChars (inp : List Char) : List (List Char) :=
  ((scanTokens (Replace replacerPairs inp)).map trimSpace).filter (fun h => decide (h ≠ []))

/-- The function `ParseHosts` of `internal/executor/executor.go`. -/
def ParseHosts (inp : String) : List String :=
  (parseHostsChars inp.data).map String.mk

/-- A well-formed host name: non-empty, without comma, space, carriage return
or newline, unchanged by `strings.TrimSpace`, and short enough for the
scanner buffer. -/
def IsHostName (h : List Char) : Prop :=
  h ≠ [] ∧ (∀ c ∈ h, c ≠ ',' ∧ c ≠ ' ' ∧ c ≠ '\r' ∧ c ≠ '\n') ∧
    trimSpace h = h ∧ utf8Len h < MaxScanTokenSize

end Executor

/-! ## The job store of `internal/db/db.go` -/

namespace Db

/-- A `time.Time` value, as an instant. -/
abbrev Time := Int

/-- The struct `Job`; also a row of the table `jobs`
(`id TEXT PRIMARY KEY, command, start_time, end_time, timeout, status`),
where `EndTime = none` is a NULL `end_time`. -/
structure Job where
  ID : String
  Command : String
  StartTime : Time
  EndTime : Option Time
  Timeout : Int
  Status : String
  deriving DecidableEq, Repr

/-- The struct `Result`. -/
structure Result where
  Host : String
  Output : String
  Error : String
  ExitCode : Int
  Duration : Int
  deriving DecidableEq, Repr

/-- A row of the table `hosts (job_id, host)`. -/
structure HostRow where
  job_id : String
  host : String
  deriving DecidableEq, Repr

/-- A row of the table `results (job_id, host, output, error, exit_code, duration)`. -/
structure ResultRow where
  job_id : String
  result : Result
  deriving DecidableEq, Repr

/-- The three tables of the schema, each as its rows in rowid (insertion) order. -/
structure Tables where
  jobs : List Job
  hosts : List HostRow
  results : List ResultRow
  deriving DecidableEq, Repr

/-- The package variable `database`: `none` is the nil handle before `Init`. -/
abbrev Database := Option Tables

/-- The function `Init`: once only, the database at the path is opened (its
content `file`, when the file exists) and the missing tables are created. -/
def Init (file : Option Tables) (db : Database) : Database :=
  match db with
  | some t => some t
  | none => some (file.getD { jobs := [], hosts := [], results := [] })

/-- The function `CreateJob`: a row is inserted into `jobs`, with a NULL
`end_time`; the primary key rejects an id that is present already.  The
result is the database after the call and the error returned. -/
def CreateJob (db : Database) (id command : String) (startTime : Time) (timeout : Int)
    (status : String) : Database × Option String :=
  match db with
  | none => (none, some "database not initialized")
  | some t =>
    if t.jobs.any (fun j => j.ID == id) then
      (some t, some "UNIQUE constraint failed: jobs.id")
    else
      (some { t with jobs := t.jobs ++ [{ ID := id, Command := command, StartTime := startTime,
                                          EndTime := none, Timeout := timeout,
                                          Status := status }] }, none)

/-- The function `InsertHost`. -/
def InsertHost (db : Database) (id host : String) : Database × Option String :=
  match db with
  | none => (none, some "database not initialized")
  | some t => (some { t with hosts := t.hosts ++ [{ job_id := id, host := host }] }, none)

/-- The function `UpdateJobStatus`:
`UPDATE jobs SET status = ?, end_time = ? WHERE id = ?`. -/
def UpdateJobStatus (db : Database) (id status : String) (endTime : Time) :
    Database × Option String :=
  match db with
  | none => (none, some "database not initialized")
  | some t =>
    (some { t with jobs := t.jobs.map (fun j =>
        if j.ID == id then { j with Status := status, EndTime := some endTime } else j) }, none)

/-- The function `InsertResult`. -/
def InsertResult (db : Database) (id host output errMsg : String) (exitCode : Int)
    (duration : Int) : Database × Option String :=
  match db with
  | none => (none, some "database not initialized")
  | some t =>
    (some { t with results := t.results ++
        [{ job_id := id, result := { Host := host, Output := output, Error := errMsg,
                                     ExitCode := exitCode, Duration := duration } }] }, none)

/-- The function `GetJob`: the row of `jobs` with the id, then the rows of
`results` with that `job_id`. -/
def GetJob (db : Database) (id : String) : Except String (Job × List Result) :=
  match db with
  | none => .error "database not initialized"
  | some t =>
    match t.jobs.find? (fun j => j.ID == id) with
    | none => .error ("job " ++ id ++ " not found")
    | some job => .ok (job, (t.results.filter (fun r => r.job_id == id)).map (fun r => r.result))

/-- A call between `CreateJob` and `UpdateJobStatus` in the life of a job. -/
inductive StoreOp where
  | insertResult (id host output errMsg : String) (exitCode : Int) (duration : Int)
  | insertHost (id host : String)
  deriving DecidableEq, Repr

/-- One store call applied to the database; its error is dropped. -/
def StoreOp.apply (db : Database) : StoreOp → Database
  | .insertResult id host output errMsg exitCode duration =>
    (InsertResult db id host output errMsg exitCode duration).1
  | .insertHost id host => (InsertHost db id host).1

/-- The results that a sequence of store calls inserts for the job `id`, in order. -/
def insertedFor (id : String) : List StoreOp → List Result
  | [] => []
  | .insertResult id' host output errMsg exitCode duration :: rest =>
    if id' == id then
      { Host := host, Output := output, Error := errMsg, ExitCode := exitCode,
        Duration := duration } :: insertedFor id rest
    else insertedFor id rest
  | .insertHost _ _ :: rest => insertedFor id rest

/-- A database that holds the finished job `j0` with one host and one result. -/
def sampleTables : Tables :=
  { jobs := [{ ID := "j0", Command := "uptime", StartTime := 0, EndTime := some 2,
               Timeout := 5, Status := "completed" }],
    hosts := [{ job_id := "j0", host := "hostZ" }],
    results := [{ job_id := "j0",
                  result := { Host := "all", Output := "up", Error := "", ExitCode := 0,
                              Duration := 7 } }] }

/-- The store calls of `TestJobLifecycle` for the job `j1`, with a result of
the job `j0` inserted in between. -/
def sampleOps : List StoreOp :=
  [StoreOp.insertHost "j1" "hostA", StoreOp.insertHost "j1" "hostB",
   StoreOp.insertResult "j0" "all" "late" "" 0 9,
   StoreOp.insertResult "j1" "all" "output" "" 0 100]

end Db

/-! ## `RunJob` of `internal/executor/executor.go` -/

namespace Executor

open Db

/-- The error of `cmd.CombinedOutput()`: an `*exec.ExitError` with its
`ExitCode()`, or any other error; `msg` is `err.Error()`. -/
inductive ExecError where
  | exit (code : Int) (msg : String)
  | other (msg : String)
  deriving DecidableEq, Repr

/-- What running `parallel-ssh` under the context gives back: the combined
output, the error, `duration.Milliseconds()`, and whether the deadline of the
context passed while the command ran. -/
structure ExecResult where
  output : String
  err : Option ExecError
  elapsedMs : Int
  deadlineExceeded : Bool

/-- The outside world as `RunJob` meets it. -/
structure Env where
  /-- The package variable `hostsDir`. -/
  hostsDir : String
  /-- The function `filepath.Join` on two elements. -/
  joinPath : String → String → String
  /-- Whether `os.MkdirAll(path, 0o755)` succeeds. -/
  mkdirAll : String → Bool
  /-- Whether `os.WriteFile(path, content, 0o644)` succeeds. -/
  writeFile : String → String → Bool
  /-- The run of `exec.CommandContext(ctx, name, args...)`, where `ctx` ends after
  the given `time.Duration` (nanoseconds). -/
  run : Int → String → List String → ExecResult
  /-- The value of `time.Now().UTC()` at the status update. -/
  now : Time

/-- An effect of `RunJob`, in the order it happens. -/
inductive Call where
  | mkdirAll (path : String)
  | writeFile (path content : String)
  | exec (duration : Int) (name : String) (args : List String)
  | insertResult (id : String) (r : Result)
  | updateJobStatus (id status : String) (endTime : Time)
  deriving DecidableEq, Repr

/-- The state `RunJob` works on: the database and the effects so far. -/
structure World where
  db : Database
  log : List Call

/-- The call `db.UpdateJobStatus` from the executor: performed and logged. -/
def World.updateJobStatus (w : World) (id status : String) (endTime : Time) : World :=
  { db := (UpdateJobStatus w.db id status endTime).1,
    log := w.log ++ [Call.updateJobStatus id status endTime] }

/-- The call `db.InsertResult` from the executor: performed and logged. -/
def World.insertResult (w : World) (id host output errMsg : String) (exitCode : Int)
    (duration : Int) : World :=
  { db := (InsertResult w.db id host output errMsg exitCode duration).1,
    log := w.log ++ [Call.insertResult id { Host := host, Output := output, Error := errMsg,
                                            ExitCode := exitCode, Duration := duration }] }

/-- An effect outside the database, logged. -/
def World.record (w : World) (c : Call) : World :=
  { w with log := w.log ++ [c] }

/-- The block "Determine status and exit code" of `RunJob`: the status, the
exit code and the error text that follow from the error of the command. -/
def determineStatus (err : Option ExecError) : String × Int × String :=
  match err with
  | none => ("completed", 0, "")
  | some (ExecError.exit code msg) => ("error", code, msg)
  | some (ExecError.other msg) => ("error", -1, msg)

/-- A value folded into the range of `int64`, as Go arithmetic on `int64` does. -/
def wrapInt64 (x : Int) : Int :=
  (x + 2 ^ 63) % 2 ^ 64 - 2 ^ 63

/-- The duration `time.Duration(timeout)*time.Second` of the context of `RunJob`,
in nanoseconds. -/
def timeoutDuration (timeout : Int) : Int :=
  wrapInt64 (wrapInt64 timeout * 1000000000)

/-- The local `hostsFile` of `RunJob`: `filepath.Join(hostsDir, id+".hosts")`. -/
def hostsFile (env : Env) (id : String) : String :=
  env.joinPath env.hostsDir (id ++ ".hosts")

/-- The outcome of `cmd.CombinedOutput()` for the command that `RunJob` builds:
`parallel-ssh -i -h hostsFile command` under the context of the timeout. -/
def commandResult (env : Env) (id command : String) (timeout : Int) : ExecResult :=
  env.run (timeoutDuration timeout) "parallel-ssh" ["-i", "-h", hostsFile env id, command]

/-- The function `RunJob`. -/
def RunJob (env : Env) (w : World) (id : String) (hosts : List String) (command : String)
    (timeout : Int) : World :=
  -- Create hosts directory
  let w := w.record (Call.mkdirAll env.hostsDir)
  if env.mkdirAll env.hostsDir = false then
    w.updateJobStatus id "error" env.now
  else
    -- Create hosts file
    let w := w.record (Call.writeFile (hostsFile env id) (Join hosts "\n"))
    if env.writeFile (hostsFile env id) (Join hosts "\n") = false then
      w.updateJobStatus id "error" env.now
    else
      -- Prepare context with timeout
      let duration := timeoutDuration timeout
      -- Build command
      let w := w.record (Call.exec duration "parallel-ssh" ["-i", "-h", hostsFile env id, command])
      let res := commandResult env id command timeout
      -- Determine status and exit code
      let outcome := determineStatus res.err
      -- For simplicity, store a single result entry with host "all"
      let w := w.insertResult id "all" res.output outcome.2.2 outcome.2.1 res.elapsedMs
      -- Update job status
      w.updateJobStatus id outcome.1 env.now

/-- The job status updates among the effects, as (id, status), in order. -/
def statusUpdates : List Call → List (String × String)
  | [] => []
  | Call.updateJobStatus id status _ :: rest => (id, status) :: statusUpdates rest
  | _ :: rest => statusUpdates rest

/-- The commands started among the effects. -/
def execCalls : List Call → List (String × List String)
  | [] => []
  | Call.exec _ name args :: rest => (name, args) :: execCalls rest
  | _ :: rest => execCalls rest

/-- The result rows of the table `results` for a job, in rowid order. -/
def resultsOf (db : Database) (id : String) : List Result :=
  match db with
  | none => []
  | some t => (t.results.filter (fun r => r.job_id == id)).map (fun r => r.result)

/-- A sample world outside: every file operation succeeds and the command
ends with the given result. -/
def sampleEnv (res : ExecResult) : Env where
  hostsDir := "/tmp/pssh-hosts"
  joinPath := fun dir name => dir ++ "/" ++ name
  mkdirAll := fun _ => true
  writeFile := fun _ _ => true
  run := fun _ _ _ => res
  now := 100

/-- A command that succeeds after one second. -/
def okResult : ExecResult :=
  { output := "ok\n", err := none, elapsedMs := 1000, deadlineExceeded := false }

/-- A command that fails with exit status 1, the timeout not reached. -/
def failedResult : ExecResult :=
  { output := "", err := some (ExecError.exit 1 "exit status 1"), elapsedMs := 1000,
    deadlineExceeded := false }

/-- A command killed when the job timeout fired. -/
def timedOutResult : ExecResult :=
  { output := "", err := some (ExecError.exit (-1) "signal: killed"), elapsedMs := 30000,
    deadlineExceeded := true }

/-- A sample world outside in which the hosts file cannot be written. -/
def noWriteEnv : Env :=
  { sampleEnv okResult with writeFile := fun _ _ => false }

/-- An initialized database holding the running job `job-1` and nothing else. -/
def oneJobWorld : World :=
  { db := (CreateJob (Init none none) "job-1" "echo ok" 0 30 "running").1, log := [] }

end Executor

/-! ## The `POST /api/run` handler of `cmd/server/main.go` -/

namespace Server

open Db Executor

/-- The struct `RunRequest`. -/
structure RunRequest where
  Hosts : String
  Command : String
  Timeout : Int
  deriving DecidableEq, Repr

/-- The JSON answer of the handler: the HTTP status and the one field of the
body (`error` or `id`). -/
structure Response where
  code : Nat
  field : String
  value : String
  deriving DecidableEq, Repr

/-- The methods of the store handle that the handler calls.  Their bodies are
not part of `internal/db/db.go`, so the handler takes them as parameters: each
gives the database after the call and the error returned. -/
structure Store where
  CreateJob : Database → Job → Database × Option String
  InsertHosts : Database → String → List String → Database × Option String

/-- What the handler needs from outside: the result of `uuid.New().String()`
and of `time.Now().UTC()`. -/
structure ReqEnv where
  newID : String
  now : Time

/-- The arguments of the `RunJob` call that the handler starts in the background. -/
structure Spawn where
  id : String
  hosts : List String
  command : String
  timeout : Int
  deriving DecidableEq, Repr

/-- The handler registered for `POST /api/run`.  `body` is the outcome of
`c.ShouldBindJSON(&req)`; `RunRequest` carries no binding tag, so a body that
parses binds whatever the values of its fields.  The job literal of the
handler sets the id, the command, the creation time (here `StartTime`) and the
status `running`; the other fields keep their zero values.  The third
component of the result is the `RunJob` call started with `go`, if any. -/
def postRun (store : Store) (renv : ReqEnv) (db : Database) (body : Except String RunRequest) :
    Response × Database × Option Spawn :=
  match body with
  | .error e => ({ code := 400, field := "error", value := e }, db, none)
  | .ok req =>
    let jobID := renv.newID
    let now := renv.now
    let job : Job := { ID := jobID, Command := req.Command, StartTime := now, EndTime := none,
                       Timeout := 0, Status := "running" }
    match store.CreateJob db job with
    | (db, some e) => ({ code := 500, field := "error", value := e }, db, none)
    | (db, none) =>
      let hosts := ParseHosts req.Hosts
      match store.InsertHosts db jobID hosts with
      | (db, some e) => ({ code := 500, field := "error", value := e }, db, none)
      | (db, none) =>
        -- run in background
        ({ code := 200, field := "id", value := jobID }, db,
          some { id := jobID, hosts := hosts, command := req.Command, timeout := req.Timeout })

/-- The submission path: the handler, then the background `RunJob` it started. -/
def submit (store : Store) (renv : ReqEnv) (env : Env) (w : World)
    (body : Except String RunRequest) : Response × World :=
  match postRun store renv w.db body with
  | (resp, db, none) => (resp, { w with db := db })
  | (resp, db, some sp) =>
    (resp, RunJob env { w with db := db } sp.id sp.hosts sp.command sp.timeout)

/-- A store handle over the functions of `internal/db/db.go`: `CreateJob` with
the fields of the job, and `InsertHost` for each host until one fails. -/
def dbStore : Store where
  CreateJob := fun db job => Db.CreateJob db job.ID job.Command job.StartTime job.Timeout job.Status
  InsertHosts := fun db id hosts =>
    hosts.foldl (fun acc h =>
      match acc with
      | (db, some e) => (db, some e)
      | (db, none) => Db.InsertHost db id h) (db, none)

/-- An initialized, empty database and no effect yet. -/
def emptyWorld : World :=
  { db := Init none none, log := [] }

/-- A sample request context: the fresh job id `job-1` at instant 0. -/
def sampleReqEnv : ReqEnv :=
  { newID := "job-1", now := 0 }

/-- A request with no host, no command and the timeout 0. -/
def blankRequest : RunRequest :=
  { Hosts := "", Command := "", Timeout := 0 }

/-- A request with a command and a timeout but no host. -/
def noHostRequest : RunRequest :=
  { Hosts := " , ", Command := "uptime", Timeout := 30 }

end Server

namespace Executor

/-- The separators the specification names: comma, space, carriage return
and newline. -/
def isSeparator (c : Char) : Bool :=
  c == ',' || c == ' ' || c == '\r' || c == '\n'

/-- The pieces obtained by cutting the input at every separator, following
the words of the specification. -/
def cutAtSeparators : List Char → List (List Char)
  | [] => [[]]
  | c :: cs =>
    if isSeparator c then [] :: cutAtSeparators cs
    else
      match cutAtSeparators cs with
      | [] => [[c]]
      | l :: ls => (c :: l) :: ls

/-- The host list as the specification words it: the input cut at every
comma, space, carriage return and newline, each piece trimmed, the pieces
that are then empty discarded. -/
def specParseHosts (inp : String) : List String :=
  (((cutAtSeparators inp.data).map trimSpace).filter (fun h => decide (h ≠ []))).map String.mk

/-- An input with a host name of `MaxScanTokenSize` bytes between two short ones:
`h1,aaa...a,h2`. -/
def longInput : String :=
  String.mk (['h', '1'] ++ ',' :: (List.replicate MaxScanTokenSize 'a' ++ ',' :: ['h', '2']))

instance : DecidablePred IsHostName := fun h => by
  unfold IsHostName
  exact inferInstance

/-! ## Lemmas on the standard library pieces -/

theorem splitLines_mem_chars (s : List Char) :
    ∀ l ∈ splitLines s, ∀ c ∈ l, c ∈ s ∧ c ≠ '\n' := by
  induction s with
  | nil => intro l hl; simp [splitLines] at hl
  | cons a cs ih =>
    intro l hl c hc
    unfold splitLines at hl
    by_cases ha : a = '\n'
    · simp only [ha, if_true, List.mem_cons] at hl
      rcases hl with rfl | hl
      · simp at hc
      · exact ⟨List.mem_cons_of_mem _ (ih l hl c hc).1, (ih l hl c hc).2⟩
    · simp only [ha, if_false] at hl
      cases hs : splitLines cs with
      | nil =>
        rw [hs] at hl
        simp only [List.mem_singleton] at hl
        subst hl
        simp only [List.mem_singleton] at hc
        subst hc
        exact ⟨List.mem_cons_self _ _, ha⟩
      | cons l0 ls =>
        rw [hs] at hl
        simp only [List.mem_cons] at hl
        rcases hl with rfl | hl
        · simp only [List.mem_cons] at hc
          rcases hc with rfl | hc
          · exact ⟨List.mem_cons_self _ _, ha⟩
          · have h0 := ih l0 (by rw [hs]; exact List.mem_cons_self _ _) c hc
            exact ⟨List.mem_cons_of_mem _ h0.1, h0.2⟩
        · have h0 := ih l (by rw [hs]; exact List.mem_cons_of_mem _ hl) c hc
          exact ⟨List.mem_cons_of_mem _ h0.1, h0.2⟩

theorem splitLines_append_newline (l rest : List Char) (hl : ∀ c ∈ l, c ≠ '\n') :
    splitLines (l ++ '\n' :: rest) = l :: splitLines rest := by
  induction l with
  | nil => simp [splitLines]
  | cons a l ih =>
    have ha : a ≠ '\n' := hl a (List.mem_cons_self _ _)
    have ih' := ih (fun c hc => hl c (List.mem_cons_of_mem _ hc))
    show splitLines (a :: (l ++ '\n' :: rest)) = (a :: l) :: splitLines rest
    rw [splitLines]
    simp only [ha, if_false, ih']

theorem splitLines_single (l : List Char) (hl : ∀ c ∈ l, c ≠ '\n') (hne : l ≠ []) :
    splitLines l = [l] := by
  induction l with
  | nil => exact absurd rfl hne
  | cons a l ih =>
    have ha : a ≠ '\n' := hl a (List.mem_cons_self _ _)
    cases l with
    | nil => simp [splitLines, ha]
    | cons b l =>
      have ih' := ih (fun c hc => hl c (List.mem_cons_of_mem _ hc)) (by simp)
      rw [splitLines]
      simp only [ha, if_false, ih']

theorem splitLines_joinChars (hs : List (List Char))
    (h : ∀ x ∈ hs, x ≠ [] ∧ ∀ c ∈ x, c ≠ '\n') :
    splitLines (joinChars ['\n'] hs) = hs := by
  induction hs with
  | nil => simp [joinChars, splitLines]
  | cons x t ih =>
    have hx := h x (List.mem_cons_self _ _)
    cases t with
    | nil => simpa [joinChars] using splitLines_single x hx.2 hx.1
    | cons y t =>
      have ih' := ih (fun z hz => h z (List.mem_cons_of_mem _ hz))
      simp only [joinChars, List.append_assoc, List.singleton_append]
      rw [splitLines_append_newline x _ hx.2]
      simp only [joinChars] at ih'
      rw [ih']

theorem replaceChar_eq (c : Char) :
    (replacerPairs.lookup c).getD c = if c = ',' ∨ c = ' ' ∨ c = '\r' then '\n' else c := by
  by_cases h1 : c = ','
  · subst h1; decide
  · by_cases h2 : c = ' '
    · subst h2; decide
    · by_cases h3 : c = '\r'
      · subst h3; decide
      · have e1 : (c == ',') = false := by simpa using h1
        have e2 : (c == ' ') = false := by simpa using h2
        have e3 : (c == '\r') = false := by simpa using h3
        simp [replacerPairs, List.lookup, e1, e2, e3, h1, h2, h3]

theorem Replace_mem (s : List Char) :
    ∀ c ∈ Replace replacerPairs s, c ≠ ',' ∧ c ≠ ' ' ∧ c ≠ '\r' := by
  intro c hc
  simp only [Replace, List.mem_map] at hc
  obtain ⟨a, _, rfl⟩ := hc
  rw [replaceChar_eq]
  split
  · decide
  · rename_i h
    simp only [not_or] at h
    exact h

theorem Replace_joinChars (sep : Char) (hsep : sep = ',' ∨ sep = ' ' ∨ sep = '\r' ∨ sep = '\n')
    (hs : List (List Char)) (h : ∀ x ∈ hs, ∀ c ∈ x, c ≠ ',' ∧ c ≠ ' ' ∧ c ≠ '\r') :
    Replace replacerPairs (joinChars [sep] hs) = joinChars ['\n'] hs := by
  have hfix : ∀ x : List Char, (∀ c ∈ x, c ≠ ',' ∧ c ≠ ' ' ∧ c ≠ '\r') →
      Replace replacerPairs x = x := by
    intro x hx
    unfold Replace
    conv_rhs => rw [← List.map_id x]
    apply List.map_congr_left
    intro c hc
    rw [replaceChar_eq]
    have := hx c hc
    simp [this.1, this.2.1, this.2.2]
  have hsepv : Replace replacerPairs [sep] = ['\n'] := by
    rcases hsep with rfl | rfl | rfl | rfl <;> decide
  induction hs with
  | nil => simp [joinChars, Replace]
  | cons x t ih =>
    have hx := hfix x (h x (List.mem_cons_self _ _))
    cases t with
    | nil => simpa [joinChars] using hx
    | cons y t =>
      have ih' := ih (fun z hz => h z (List.mem_cons_of_mem _ hz))
      simp only [joinChars]
      unfold Replace at hx hsepv ih' ⊢
      rw [List.map_append, List.map_append, hx, hsepv, ih']

theorem trimSpace_eq (l : List Char) :
    trimSpace l = (l.dropWhile isSpace).rdropWhile isSpace := rfl

theorem trimSpace_sublist (l : List Char) : (trimSpace l).Sublist l := by
  rw [trimSpace_eq]
  exact (List.rdropWhile_prefix isSpace _).sublist.trans (List.dropWhile_sublist isSpace)

theorem trimSpace_idem (l : List Char) : trimSpace (trimSpace l) = trimSpace l := by
  have key : (trimSpace l).dropWhile isSpace = trimSpace l := by
    rw [trimSpace_eq]
    have hpre : ((l.dropWhile isSpace).rdropWhile isSpace) <+: l.dropWhile isSpace :=
      List.rdropWhile_prefix isSpace _
    cases ht : (l.dropWhile isSpace).rdropWhile isSpace with
    | nil => rfl
    | cons a t =>
      rw [ht] at hpre
      obtain ⟨r, hr⟩ := hpre
      have hne : l.dropWhile isSpace ≠ [] := by rw [← hr]; simp
      have hh := List.head_dropWhile_not isSpace l hne
      have ha : (l.dropWhile isSpace).head hne = a := by
        simp only [← hr]
        rfl
      rw [ha] at hh
      simp [List.dropWhile_cons, hh]
  conv_lhs => rw [trimSpace_eq, key, trimSpace_eq]
  rw [List.rdropWhile_idempotent, ← trimSpace_eq]

theorem utf8Len_sublist {a b : List Char} (h : a.Sublist b) : utf8Len a ≤ utf8Len b := by
  induction h with
  | slnil => exact Nat.le_refl _
  | cons c _ ih =>
    simp only [utf8Len, List.map_cons, List.sum_cons] at ih ⊢
    omega
  | cons₂ c _ ih =>
    simp only [utf8Len, List.map_cons, List.sum_cons] at ih ⊢
    omega

theorem dropCR_of_not_mem (l : List Char) (h : ∀ c ∈ l, c ≠ '\r') : dropCR l = l := by
  unfold dropCR
  split
  · rename_i hlast
    exact absurd rfl (h '\r' (List.mem_of_getLast?_eq_some hlast))
  · rfl

theorem cutAtSeparators_append_sep (l rest : List Char) (sep : Char)
    (hl : ∀ c ∈ l, isSeparator c = false) (hsep : isSeparator sep = true) :
    cutAtSeparators (l ++ sep :: rest) = l :: cutAtSeparators rest := by
  induction l with
  | nil => simp [cutAtSeparators, hsep]
  | cons a l ih =>
    have ha : isSeparator a = false := hl a (List.mem_cons_self _ _)
    have ih' := ih (fun c hc => hl c (List.mem_cons_of_mem _ hc))
    show cutAtSeparators (a :: (l ++ sep :: rest)) = (a :: l) :: cutAtSeparators rest
    rw [cutAtSeparators]
    simp [ha, ih']

theorem trimSpace_replicate_a (k : Nat) :
    trimSpace (List.replicate (k + 1) 'a') = List.replicate (k + 1) 'a' := by
  have ha : ¬ (isSpace 'a' = true) := by decide
  unfold trimSpace
  rw [List.replicate_succ, List.dropWhile_cons_of_neg ha, ← List.replicate_succ,
    List.reverse_replicate, List.replicate_succ, List.dropWhile_cons_of_neg ha,
    ← List.replicate_succ, List.reverse_replicate]

/-! ## Lemmas on `ParseHosts` -/

theorem parseHostsChars_isHostName (s : List Char) :
    ∀ h ∈ parseHostsChars s, IsHostName h := by
  intro h hh
  simp only [parseHostsChars, scanTokens, List.mem_filter, List.mem_map,
    decide_eq_true_eq] at hh
  obtain ⟨⟨t, ⟨l, hl, rfl⟩, rfl⟩, hne⟩ := hh
  have hmem : l ∈ splitLines (Replace replacerPairs s) := (List.takeWhile_sublist _).subset hl
  have hshort : utf8Len l < MaxScanTokenSize := by
    simpa using List.mem_takeWhile_imp hl
  have hchars : ∀ c ∈ l, c ≠ ',' ∧ c ≠ ' ' ∧ c ≠ '\r' ∧ c ≠ '\n' := by
    intro c hc
    have h1 := splitLines_mem_chars _ l hmem c hc
    have h2 := Replace_mem s c h1.1
    exact ⟨h2.1, h2.2.1, h2.2.2, h1.2⟩
  have hcr : dropCR l = l := dropCR_of_not_mem l (fun c hc => (hchars c hc).2.2.1)
  rw [hcr] at hne ⊢
  refine ⟨hne, ?_, trimSpace_idem l, ?_⟩
  · intro c hc
    exact hchars c ((trimSpace_sublist l).subset hc)
  · exact Nat.lt_of_le_of_lt (utf8Len_sublist (trimSpace_sublist l)) hshort

theorem parseHostsChars_joinChars (sep : Char)
    (hsep : sep = ',' ∨ sep = ' ' ∨ sep = '\r' ∨ sep = '\n')
    (hs : List (List Char)) (h : ∀ x ∈ hs, IsHostName x) :
    parseHostsChars (joinChars [sep] hs) = hs := by
  have hrep : Replace replacerPairs (joinChars [sep] hs) = joinChars ['\n'] hs :=
    Replace_joinChars sep hsep hs
      (fun x hx c hc => ⟨((h x hx).2.1 c hc).1, ((h x hx).2.1 c hc).2.1, ((h x hx).2.1 c hc).2.2.1⟩)
  have hsplit : splitLines (joinChars ['\n'] hs) = hs :=
    splitLines_joinChars hs (fun x hx => ⟨(h x hx).1, fun c hc => ((h x hx).2.1 c hc).2.2.2⟩)
  have htake : hs.takeWhile (fun l => decide (utf8Len l < MaxScanTokenSize)) = hs := by
    rw [List.takeWhile_eq_self_iff]
    intro x hx
    simpa using (h x hx).2.2.2
  have hdrop : hs.map dropCR = hs := by
    conv_rhs => rw [← List.map_id hs]
    apply List.map_congr_left
    intro x hx
    exact dropCR_of_not_mem x (fun c hc => ((h x hx).2.1 c hc).2.2.1)
  have htrim : hs.map trimSpace = hs := by
    conv_rhs => rw [← List.map_id hs]
    apply List.map_congr_left
    intro x hx
    exact (h x hx).2.2.1
  have hfilter : hs.filter (fun x => decide (x ≠ [])) = hs := by
    rw [List.filter_eq_self]
    intro x hx
    simpa using (h x hx).1
  unfold parseHostsChars scanTokens
  rw [hrep, hsplit, htake, hdrop, htrim, hfilter]

theorem map_data_map_mk (l : List (List Char)) : (l.map String.mk).map String.data = l := by
  induction l with
  | nil => rfl
  | cons a t ih => simp [ih]

theorem utf8Len_replicate_a (n : Nat) : utf8Len (List.replicate n 'a') = n := by
  induction n with
  | zero => rfl
  | succ k ih =>
    have h1 : Char.utf8Size 'a' = 1 := by decide
    simp only [utf8Len, List.replicate_succ, List.map_cons, List.sum_cons, h1] at ih ⊢
    omega

theorem dropWhile_fixed_head {l : List Char} (h : l.dropWhile isSpace = l) :
    ∀ c, l.head? = some c → isSpace c = false := by
  intro c hc
  cases l with
  | nil => simp at hc
  | cons a t =>
    simp only [List.head?_cons, Option.some.injEq] at hc
    subst hc
    cases hp : isSpace a with
    | false => rfl
    | true =>
      rw [List.dropWhile_cons_of_pos hp] at h
      have hlen := (List.dropWhile_sublist isSpace (l := t)).length_le
      rw [h] at hlen
      simp at hlen

theorem trimSpace_fixed_ends {l : List Char} (h : trimSpace l = l) :
    (∀ c, l.head? = some c → isSpace c = false) ∧
    (∀ c, l.getLast? = some c → isSpace c = false) := by
  have s1 : (l.dropWhile isSpace).Sublist l := List.dropWhile_sublist isSpace
  have s2 : ((l.dropWhile isSpace).reverse.dropWhile isSpace).Sublist
      (l.dropWhile isSpace).reverse := List.dropWhile_sublist isSpace
  have hlen : l.length = ((l.dropWhile isSpace).reverse.dropWhile isSpace).length := by
    conv_lhs => rw [← h]
    simp [trimSpace]
  have e1 : l.dropWhile isSpace = l := by
    apply s1.eq_of_length
    have := s1.length_le
    have := s2.length_le
    simp only [List.length_reverse] at this
    omega
  have e2 : l.reverse.dropWhile isSpace = l.reverse := by
    have h' := h
    unfold trimSpace at h'
    rw [e1] at h'
    have h2 := congrArg List.reverse h'
    rw [List.reverse_reverse] at h2
    exact h2
  refine ⟨dropWhile_fixed_head e1, ?_⟩
  intro c hc
  apply dropWhile_fixed_head e2
  rw [List.head?_reverse]
  exact hc

end Executor


/-! ## The claims on `ParseHosts` -/

open Executor Db Server

/-- C1 (counterexample): `ParseHosts("a,a,b")` is `["a","a","b"]`, a list
with the host `a` twice, and not `["a","b"]`. -/
theorem ParseHosts_duplicate_counterexample :
    ParseHosts "a,a,b" = ["a", "a", "b"] ∧ ¬ (ParseHosts "a,a,b").Nodup ∧
      ParseHosts "a,a,b" ≠ ["a", "b"] := by
  decide

/-- C6: `ParseHosts` is idempotent: parsing the hosts of `s` joined by newlines
gives the hosts of `s` again, in the same order. -/
theorem ParseHosts_idempotent (s : String) :
    ParseHosts (Join (ParseHosts s) "\n") = ParseHosts s := by
  have h1 := parseHostsChars_isHostName s.data
  have h2 := parseHostsChars_joinChars '\n' (Or.inr (Or.inr (Or.inr rfl)))
    (parseHostsChars s.data) h1
  show (parseHostsChars (joinChars ['\n'] ((ParseHosts s).map String.data))).map String.mk
    = ParseHosts s
  unfold ParseHosts
  rw [map_data_map_mk, h2]

/-- C7 (the code at the input of `TestParseHosts`): the semicolon is no
separator, so `host2;host3` stays one host and four hosts are returned where
the test expects five. -/
theorem ParseHosts_semicolon_kept :
    ParseHosts "host1, host2;host3\nhost4\n\nhost5" = ["host1", "host2;host3", "host4", "host5"] ∧
      ParseHosts "host1, host2;host3\nhost4\n\nhost5" ≠
        ["host1", "host2", "host3", "host4", "host5"] := by
  decide

/-- C9 (counterexample): a tab does not separate hosts: `"a\tb"` parses to
the single host `"a\tb"`, which contains a tab. -/
theorem ParseHosts_tab_counterexample :
    ParseHosts "a\tb" = ["a\tb"] ∧ ¬ (∀ h ∈ ParseHosts "a\tb", ∀ c ∈ h.data, c ≠ '\t') := by
  decide

/-- C9 (amended): no host that `ParseHosts` returns is empty or contains a
comma, a space, a carriage return or a newline, and none begins or ends with
a white-space character. -/
theorem ParseHosts_host_shape (s : String) (h : String) (hh : h ∈ ParseHosts s) :
    h ≠ "" ∧ (∀ c ∈ h.data, c ≠ ',' ∧ c ≠ ' ' ∧ c ≠ '\r' ∧ c ≠ '\n') ∧
      (∀ c, h.data.head? = some c → isSpace c = false) ∧
      (∀ c, h.data.getLast? = some c → isSpace c = false) := by
  obtain ⟨l, hl, rfl⟩ := List.mem_map.mp hh
  have hn := parseHostsChars_isHostName s.data l hl
  refine ⟨?_, hn.2.1, (trimSpace_fixed_ends hn.2.2.1).1, (trimSpace_fixed_ends hn.2.2.1).2⟩
  intro he
  exact hn.1 (congrArg String.data he)

/-- C9 (witness): the host `"a\tb"` returned for the input `"a\tb"`. -/
theorem ParseHosts_host_shape_witness :
    "a\tb" ∈ ParseHosts "a\tb" ∧
      ("a\tb" ≠ "" ∧ (∀ c ∈ "a\tb".data, c ≠ ',' ∧ c ≠ ' ' ∧ c ≠ '\r' ∧ c ≠ '\n') ∧
        (∀ c, "a\tb".data.head? = some c → isSpace c = false) ∧
        (∀ c, "a\tb".data.getLast? = some c → isSpace c = false)) :=
  ⟨by decide, ParseHosts_host_shape "a\tb" "a\tb" (by decide)⟩

theorem splitLines_ne_nil (s : List Char) (h : s ≠ []) : splitLines s ≠ [] := by
  cases s with
  | nil => exact absurd rfl h
  | cons a cs =>
    rw [splitLines]
    split
    · simp
    · split <;> simp

theorem replaceChar_sep (c : Char) (h : isSeparator c = true) :
    (replacerPairs.lookup c).getD c = '\n' := by
  rw [replaceChar_eq]
  simp only [isSeparator, Bool.or_eq_true, beq_iff_eq] at h
  rcases h with ((h | h) | h) | h
  · simp [h]
  · simp [h]
  · simp [h]
  · subst h; decide

theorem replaceChar_not_sep (c : Char) (h : isSeparator c = false) :
    (replacerPairs.lookup c).getD c = c ∧ c ≠ '\n' := by
  rw [replaceChar_eq]
  simp only [isSeparator, Bool.or_eq_false_iff, beq_eq_false_iff_ne, ne_eq] at h
  obtain ⟨⟨⟨h1, h2⟩, h3⟩, h4⟩ := h
  simp [h1, h2, h3, h4]

theorem cutAtSeparators_eq (s : List Char) :
    ∃ E : List (List Char), (E = [] ∨ E = [[]]) ∧
      cutAtSeparators s = splitLines (Replace replacerPairs s) ++ E := by
  induction s with
  | nil => exact ⟨[[]], Or.inr rfl, rfl⟩
  | cons a cs ih =>
    obtain ⟨E, hE, hcut⟩ := ih
    cases hsep : isSeparator a with
    | true =>
      refine ⟨E, hE, ?_⟩
      have hr := replaceChar_sep a hsep
      rw [cutAtSeparators]
      simp only [hsep, if_true, hcut, Replace, List.map_cons, hr]
      rw [splitLines]
      simp [Replace]
    | false =>
      have hr := replaceChar_not_sep a hsep
      cases cs with
      | nil =>
        refine ⟨[], Or.inl rfl, ?_⟩
        simp [cutAtSeparators, hsep, Replace, hr.1, splitLines, hr.2]
      | cons b cs =>
        refine ⟨E, hE, ?_⟩
        have hne : splitLines (Replace replacerPairs (b :: cs)) ≠ [] :=
          splitLines_ne_nil _ (by simp [Replace])
        obtain ⟨l, ls, hl⟩ := List.exists_cons_of_ne_nil hne
        rw [cutAtSeparators]
        simp only [hsep, Bool.false_eq_true, if_false, hcut, hl]
        have hrep : Replace replacerPairs (a :: b :: cs) = a :: Replace replacerPairs (b :: cs) := by
          simp [Replace, hr.1]
        rw [hrep, splitLines]
        simp [hr.2, hl]

/-- For an input all of whose pieces are shorter than the scanner buffer,
`ParseHosts` returns what the specification describes: the pieces between
separators, trimmed, the empty ones left out. -/
theorem ParseHosts_eq_spec_of_short (s : String)
    (h : ∀ l ∈ cutAtSeparators s.data, utf8Len l < MaxScanTokenSize) :
    ParseHosts s = specParseHosts s := by
  obtain ⟨E, hE, hcut⟩ := cutAtSeparators_eq s.data
  have hshort : ∀ l ∈ splitLines (Replace replacerPairs s.data),
      utf8Len l < MaxScanTokenSize := by
    intro l hl
    apply h
    rw [hcut]
    exact List.mem_append_left _ hl
  have htake : (splitLines (Replace replacerPairs s.data)).takeWhile
      (fun l => decide (utf8Len l < MaxScanTokenSize)) =
      splitLines (Replace replacerPairs s.data) := by
    rw [List.takeWhile_eq_self_iff]
    intro x hx
    simpa using hshort x hx
  have hdrop : (splitLines (Replace replacerPairs s.data)).map dropCR =
      splitLines (Replace replacerPairs s.data) := by
    conv_rhs => rw [← List.map_id (splitLines (Replace replacerPairs s.data))]
    apply List.map_congr_left
    intro x hx
    exact dropCR_of_not_mem x
      (fun c hc => (Replace_mem s.data c (splitLines_mem_chars _ x hx c hc).1).2.2)
  have hEf : (E.map trimSpace).filter (fun h => decide (h ≠ [])) = [] := by
    rcases hE with rfl | rfl
    · rfl
    · decide
  unfold ParseHosts specParseHosts parseHostsChars scanTokens
  rw [htake, hdrop, hcut, List.map_append, List.filter_append, hEf, List.append_nil]

/-- C1 (amended): `ParseHosts` does not deduplicate.  For every input string
whose pieces between separators are all shorter than the scanner buffer, it
returns the trimmed non-empty pieces in order of appearance, so each host
appears once for every occurrence in the input, at the position of that
occurrence. -/
theorem ParseHosts_every_occurrence (s : String)
    (h : ∀ l ∈ cutAtSeparators s.data, utf8Len l < MaxScanTokenSize) :
    ParseHosts s = specParseHosts s ∧
      ∀ x : String, (ParseHosts s).count x = (specParseHosts s).count x := by
  have he := ParseHosts_eq_spec_of_short s h
  exact ⟨he, fun x => by rw [he]⟩

/-- C1 (witness): the input `"a, a, b"` has short pieces only, and the host
`a` comes back twice. -/
theorem ParseHosts_every_occurrence_witness :
    (∀ l ∈ cutAtSeparators "a, a, b".data, utf8Len l < MaxScanTokenSize) ∧
    specParseHosts "a, a, b" = ["a", "a", "b"] ∧
    (ParseHosts "a, a, b" = specParseHosts "a, a, b" ∧
      ∀ x : String, (ParseHosts "a, a, b").count x = (specParseHosts "a, a, b").count x) :=
  ⟨by decide, by decide, ParseHosts_every_occurrence "a, a, b" (by decide)⟩

/-- C8 (the code at a failing input): for `h1,aaa...a,h2` with 65536 letters
`a`, the scanner stops at the line that does not fit its buffer, so
`ParseHosts` returns `["h1"]` only, while cutting at the separators gives the
three pieces `h1`, `aaa...a` and `h2`. -/
theorem ParseHosts_long_token_dropped :
    ParseHosts longInput = ["h1"] ∧
      specParseHosts longInput = ["h1", String.mk (List.replicate MaxScanTokenSize 'a'), "h2"] ∧
      ParseHosts longInput ≠ specParseHosts longInput := by
  have hrep : ∀ c ∈ List.replicate MaxScanTokenSize 'a', c = 'a' :=
    fun c hc => List.eq_of_mem_replicate hc
  have hN : MaxScanTokenSize = 65535 + 1 := by decide
  have h1 : ParseHosts longInput = ["h1"] := by
    have hR : Replace replacerPairs longInput.data =
        ['h', '1'] ++ '\n' :: (List.replicate MaxScanTokenSize 'a' ++ '\n' :: ['h', '2']) := by
      have ha : (replacerPairs.lookup 'a').getD 'a' = 'a' := by decide
      simp only [longInput, Replace, List.map_append, List.map_cons, List.map_replicate, ha]
      rfl
    have hS : splitLines (Replace replacerPairs longInput.data) =
        [['h', '1'], List.replicate MaxScanTokenSize 'a', ['h', '2']] := by
      rw [hR, splitLines_append_newline _ _ (by decide),
        splitLines_append_newline _ _ (fun c hc => by rw [hrep c hc]; decide)]
      rfl
    have hlong : ¬ (utf8Len (List.replicate MaxScanTokenSize 'a') < MaxScanTokenSize) := by
      rw [utf8Len_replicate_a]
      exact Nat.lt_irrefl _
    have hshort : utf8Len ['h', '1'] < MaxScanTokenSize := by decide
    have hT : scanTokens (Replace replacerPairs longInput.data) = [['h', '1']] := by
      unfold scanTokens
      rw [hS, List.takeWhile_cons_of_pos (by simpa using hshort),
        List.takeWhile_cons_of_neg (by simpa using hlong)]
      rfl
    unfold ParseHosts parseHostsChars
    rw [hT]
    rfl
  have h2 : specParseHosts longInput =
      ["h1", String.mk (List.replicate MaxScanTokenSize 'a'), "h2"] := by
    have hC : cutAtSeparators longInput.data =
        [['h', '1'], List.replicate MaxScanTokenSize 'a', ['h', '2']] := by
      unfold longInput
      rw [cutAtSeparators_append_sep _ _ ',' (by decide) (by decide),
        cutAtSeparators_append_sep _ _ ',' (fun c hc => by rw [hrep c hc]; decide) (by decide)]
      rfl
    have hne : List.replicate MaxScanTokenSize 'a' ≠ [] := by
      rw [hN, List.replicate_succ]
      exact List.cons_ne_nil _ _
    have ht : trimSpace (List.replicate MaxScanTokenSize 'a') =
        List.replicate MaxScanTokenSize 'a' := by
      rw [hN]
      exact trimSpace_replicate_a 65535
    have t1 : trimSpace ['h', '1'] = ['h', '1'] := by decide
    have t2 : trimSpace ['h', '2'] = ['h', '2'] := by decide
    unfold specParseHosts
    rw [hC]
    simp only [List.map_cons, List.map_nil, ht, t1, t2]
    rw [List.filter_cons_of_pos (by decide), List.filter_cons_of_pos (by simpa using hne),
      List.filter_cons_of_pos (by decide)]
    rfl
  refine ⟨h1, h2, ?_⟩
  rw [h1, h2]
  intro h
  have := congrArg List.length h
  simp at this

/-! ## Lemmas on `RunJob` and the job store -/

theorem statusUpdates_append (a b : List Call) :
    statusUpdates (a ++ b) = statusUpdates a ++ statusUpdates b := by
  induction a with
  | nil => rfl
  | cons c t ih => cases c <;> simp [statusUpdates, ih]

theorem determineStatus_cases (err : Option ExecError) :
    ((determineStatus err).1 = "completed" ∧ err = none ∧
        (determineStatus err).2.1 = 0 ∧ (determineStatus err).2.2 = "") ∨
      ((determineStatus err).1 = "error" ∧ err ≠ none) := by
  cases err with
  | none => exact Or.inl ⟨rfl, rfl, rfl, rfl⟩
  | some e =>
    cases e with
    | exit code msg => exact Or.inr ⟨rfl, by simp⟩
    | other msg => exact Or.inr ⟨rfl, by simp⟩

theorem RunJob_log_exec (env : Env) (w : World) (id : String) (hosts : List String)
    (command : String) (timeout : Int)
    (hmk : env.mkdirAll env.hostsDir = true)
    (hwr : env.writeFile (hostsFile env id) (Join hosts "\n") = true) :
    (RunJob env w id hosts command timeout).log = w.log ++
      [Call.mkdirAll env.hostsDir,
       Call.writeFile (hostsFile env id) (Join hosts "\n"),
       Call.exec (timeoutDuration timeout) "parallel-ssh" ["-i", "-h", hostsFile env id, command],
       Call.insertResult id
         { Host := "all",
           Output := (commandResult env id command timeout).output,
           Error := (determineStatus (commandResult env id command timeout).err).2.2,
           ExitCode := (determineStatus (commandResult env id command timeout).err).2.1,
           Duration := (commandResult env id command timeout).elapsedMs },
       Call.updateJobStatus id (determineStatus (commandResult env id command timeout).err).1
         env.now] := by
  simp [RunJob, hmk, hwr, World.updateJobStatus, World.insertResult, World.record]

theorem RunJob_db_exec (env : Env) (w : World) (id : String) (hosts : List String)
    (command : String) (timeout : Int)
    (hmk : env.mkdirAll env.hostsDir = true)
    (hwr : env.writeFile (hostsFile env id) (Join hosts "\n") = true) :
    (RunJob env w id hosts command timeout).db =
      (UpdateJobStatus
        (InsertResult w.db id "all" (commandResult env id command timeout).output
          (determineStatus (commandResult env id command timeout).err).2.2
          (determineStatus (commandResult env id command timeout).err).2.1
          (commandResult env id command timeout).elapsedMs).1
        id (determineStatus (commandResult env id command timeout).err).1 env.now).1 := by
  simp [RunJob, hmk, hwr, World.updateJobStatus, World.insertResult, World.record]

theorem RunJob_db_early (env : Env) (w : World) (id : String) (hosts : List String)
    (command : String) (timeout : Int)
    (h : env.mkdirAll env.hostsDir = false ∨
      env.writeFile (hostsFile env id) (Join hosts "\n") = false) :
    (RunJob env w id hosts command timeout).db = (UpdateJobStatus w.db id "error" env.now).1 := by
  by_cases hmk : env.mkdirAll env.hostsDir = false
  · simp [RunJob, hmk, World.updateJobStatus, World.record]
  · rcases h with h | h
    · exact absurd h hmk
    · simp [RunJob, hmk, h, World.updateJobStatus, World.record]

theorem RunJob_status_updates (env : Env) (w : World) (id : String) (hosts : List String)
    (command : String) (timeout : Int) :
    statusUpdates (RunJob env w id hosts command timeout).log = statusUpdates w.log ++
      [(id,
        if env.mkdirAll env.hostsDir = false then "error"
        else if env.writeFile (hostsFile env id) (Join hosts "\n") = false then "error"
        else (determineStatus (commandResult env id command timeout).err).1)] := by
  by_cases hmk : env.mkdirAll env.hostsDir = false
  · simp [RunJob, hmk, World.updateJobStatus, World.record, statusUpdates_append, statusUpdates]
  · by_cases hwr : env.writeFile (hostsFile env id) (Join hosts "\n") = false
    · simp [RunJob, hmk, hwr, World.updateJobStatus, World.record, statusUpdates_append,
        statusUpdates]
    · simp [RunJob, hmk, hwr, World.updateJobStatus, World.insertResult, World.record,
        statusUpdates_append, statusUpdates]

theorem find_after_update (jobs : List Job) (id status : String) (endTime : Time) (j : Job)
    (h : jobs.find? (fun x => x.ID == id) = some j) :
    (jobs.map (fun x => if x.ID == id then { x with Status := status, EndTime := some endTime }
        else x)).find? (fun x => x.ID == id) =
      some { j with Status := status, EndTime := some endTime } := by
  induction jobs with
  | nil => simp at h
  | cons a t ih =>
    cases ha : (a.ID == id) with
    | true =>
      simp only [List.find?_cons, ha, Option.some.injEq] at h
      subst h
      simp only [List.map_cons, ha, if_true, List.find?_cons]
    | false =>
      simp only [List.find?_cons, ha] at h
      simp only [List.map_cons, List.find?_cons, ha, Bool.false_eq_true, if_false]
      exact ih h

theorem GetJob_after_update (db : Database) (id status : String) (endTime : Time) (job : Job)
    (rs : List Result) (h : GetJob db id = .ok (job, rs)) :
    GetJob (UpdateJobStatus db id status endTime).1 id =
      .ok ({ job with Status := status, EndTime := some endTime }, rs) := by
  cases db with
  | none => simp [GetJob] at h
  | some t =>
    cases hf : t.jobs.find? (fun x => x.ID == id) with
    | none => simp [GetJob, hf] at h
    | some j =>
      simp only [GetJob, hf, Except.ok.injEq, Prod.mk.injEq] at h
      obtain ⟨h1, h2⟩ := h
      subst h1
      simp only [UpdateJobStatus, GetJob, find_after_update t.jobs id status endTime j hf, h2]

theorem GetJob_after_insertResult (db : Database) (id host output errMsg : String)
    (exitCode duration : Int) (job : Job) (rs : List Result) (h : GetJob db id = .ok (job, rs)) :
    GetJob (InsertResult db id host output errMsg exitCode duration).1 id =
      .ok (job, rs ++ [{ Host := host, Output := output, Error := errMsg, ExitCode := exitCode,
                         Duration := duration }]) := by
  cases db with
  | none => simp [GetJob] at h
  | some t =>
    cases hf : t.jobs.find? (fun x => x.ID == id) with
    | none => simp [GetJob, hf] at h
    | some j =>
      simp only [GetJob, hf, Except.ok.injEq, Prod.mk.injEq] at h
      obtain ⟨h1, h2⟩ := h
      subst h1
      simp [InsertResult, GetJob, hf, ← h2, List.filter_append]

theorem resultsOf_after_update (db : Database) (id id' status : String) (endTime : Time) :
    resultsOf (UpdateJobStatus db id' status endTime).1 id = resultsOf db id := by
  cases db <;> rfl

theorem resultsOf_after_insertResult (t : Tables) (id host output errMsg : String)
    (exitCode duration : Int) :
    resultsOf (InsertResult (some t) id host output errMsg exitCode duration).1 id =
      resultsOf (some t) id ++ [{ Host := host, Output := output, Error := errMsg,
                                  ExitCode := exitCode, Duration := duration }] := by
  simp [InsertResult, resultsOf, List.filter_append]

theorem ops_fold (id : String) (ops : List StoreOp) :
    ∀ t : Tables, ∃ t2 : Tables, ops.foldl StoreOp.apply (some t) = some t2 ∧
      t2.jobs = t.jobs ∧
      resultsOf (some t2) id = resultsOf (some t) id ++ insertedFor id ops := by
  induction ops with
  | nil => intro t; exact ⟨t, rfl, rfl, by simp [insertedFor]⟩
  | cons op rest ih =>
    intro t
    cases op with
    | insertHost i h =>
      obtain ⟨t2, h1, h2, h3⟩ := ih { t with hosts := t.hosts ++ [{ job_id := i, host := h }] }
      exact ⟨t2, h1, h2, h3⟩
    | insertResult i host output errMsg exitCode duration =>
      obtain ⟨t2, h1, h2, h3⟩ := ih { t with results := t.results ++
        [{ job_id := i, result := { Host := host, Output := output, Error := errMsg,
                                    ExitCode := exitCode, Duration := duration } }] }
      refine ⟨t2, h1, h2, ?_⟩
      rw [h3]
      cases hi : (i == id) with
      | true => simp [resultsOf, insertedFor, List.filter_append, hi]
      | false => simp [resultsOf, insertedFor, List.filter_append, hi]

/-! ## The claims on `RunJob`, the handler and the job store -/

/-- C2 (counterexample): for the hosts `["h1","h2","h3"]` and a command that
succeeds, the job ends `completed` with one result row, not three. -/
theorem RunJob_result_count_counterexample :
    GetJob (RunJob (sampleEnv okResult) oneJobWorld "job-1" ["h1", "h2", "h3"] "echo ok" 30).db
        "job-1" =
      .ok ({ ID := "job-1", Command := "echo ok", StartTime := 0, EndTime := some 100,
             Timeout := 30, Status := "completed" },
           [{ Host := "all", Output := "ok\n", Error := "", ExitCode := 0, Duration := 1000 }]) ∧
      (resultsOf (RunJob (sampleEnv okResult) oneJobWorld "job-1" ["h1", "h2", "h3"]
        "echo ok" 30).db "job-1").length ≠ ["h1", "h2", "h3"].length := by
  constructor
  · rfl
  · decide

/-- C2 (amended): on an initialized store, a `RunJob` that gets as far as
running the command records exactly one result row for the job, for the host
`all`, whatever the number of hosts; when the command succeeds the exit code
of that row is 0. -/
theorem RunJob_single_result (env : Env) (w : World) (t : Tables) (id : String)
    (hosts : List String) (command : String) (timeout : Int)
    (hdb : w.db = some t)
    (hmk : env.mkdirAll env.hostsDir = true)
    (hwr : env.writeFile (hostsFile env id) (Join hosts "\n") = true) :
    ∃ r : Result,
      resultsOf (RunJob env w id hosts command timeout).db id = resultsOf w.db id ++ [r] ∧
      r.Host = "all" ∧ r.Output = (commandResult env id command timeout).output ∧
      ((commandResult env id command timeout).err = none → r.ExitCode = 0) := by
  refine ⟨{ Host := "all",
            Output := (commandResult env id command timeout).output,
            Error := (determineStatus (commandResult env id command timeout).err).2.2,
            ExitCode := (determineStatus (commandResult env id command timeout).err).2.1,
            Duration := (commandResult env id command timeout).elapsedMs }, ?_, rfl, rfl, ?_⟩
  · rw [RunJob_db_exec env w id hosts command timeout hmk hwr, resultsOf_after_update, hdb,
      resultsOf_after_insertResult]
  · intro he
    rw [he]
    rfl

/-- C2 (witness): three hosts, a successful command, one result row. -/
theorem RunJob_single_result_witness :
    oneJobWorld.db =
      some { jobs := [{ ID := "job-1", Command := "echo ok", StartTime := 0, EndTime := none,
                        Timeout := 30, Status := "running" }],
             hosts := [], results := [] } ∧
    (sampleEnv okResult).mkdirAll (sampleEnv okResult).hostsDir = true ∧
    (sampleEnv okResult).writeFile (hostsFile (sampleEnv okResult) "job-1")
      (Join ["h1", "h2", "h3"] "\n") = true ∧
    ∃ r : Result,
      resultsOf (RunJob (sampleEnv okResult) oneJobWorld "job-1" ["h1", "h2", "h3"]
        "echo ok" 30).db "job-1" = resultsOf oneJobWorld.db "job-1" ++ [r] ∧
      r.Host = "all" ∧
      r.Output = (commandResult (sampleEnv okResult) "job-1" "echo ok" 30).output ∧
      ((commandResult (sampleEnv okResult) "job-1" "echo ok" 30).err = none → r.ExitCode = 0) :=
  ⟨rfl, rfl, rfl, RunJob_single_result (sampleEnv okResult) oneJobWorld
    { jobs := [{ ID := "job-1", Command := "echo ok", StartTime := 0, EndTime := none,
                 Timeout := 30, Status := "running" }], hosts := [], results := [] }
    "job-1" ["h1", "h2", "h3"] "echo ok" 30 rfl rfl rfl⟩

/-- C4 (counterexample): a command killed by the job timeout and a command
that fails by itself end with the same status `error`: no separate
timed-out status is written. -/
theorem RunJob_timeout_status_counterexample :
    timedOutResult.deadlineExceeded = true ∧ failedResult.deadlineExceeded = false ∧
      statusUpdates (RunJob (sampleEnv timedOutResult) oneJobWorld "job-1" ["h1"] "sleep 60" 30).log
        = [("job-1", "error")] ∧
      statusUpdates (RunJob (sampleEnv failedResult) oneJobWorld "job-1" ["h1"] "false" 30).log
        = [("job-1", "error")] := by
  decide

/-- C4 (amended): when `RunJob` runs the command, the status it writes is
`completed` exactly when the command returned no error, and then the recorded
exit code is 0 and the error text is empty; it is `error` whenever the
command returned an error, whether or not the job timeout fired. -/
theorem RunJob_final_status (env : Env) (w : World) (id : String) (hosts : List String)
    (command : String) (timeout : Int)
    (hmk : env.mkdirAll env.hostsDir = true)
    (hwr : env.writeFile (hostsFile env id) (Join hosts "\n") = true) :
    statusUpdates (RunJob env w id hosts command timeout).log = statusUpdates w.log ++
        [(id, if (commandResult env id command timeout).err = none then "completed" else "error")] ∧
      ((commandResult env id command timeout).err = none →
        Call.insertResult id
          { Host := "all", Output := (commandResult env id command timeout).output, Error := "",
            ExitCode := 0, Duration := (commandResult env id command timeout).elapsedMs }
          ∈ (RunJob env w id hosts command timeout).log) := by
  constructor
  · rw [RunJob_status_updates]
    have hmk2 : ¬ (env.mkdirAll env.hostsDir = false) := by simp [hmk]
    have hwr2 : ¬ (env.writeFile (hostsFile env id) (Join hosts "\n") = false) := by simp [hwr]
    rw [if_neg hmk2, if_neg hwr2]
    rcases determineStatus_cases (commandResult env id command timeout).err with h | h
    · rw [h.1, if_pos h.2.1]
    · rw [h.1, if_neg h.2]
  · intro he
    rw [RunJob_log_exec env w id hosts command timeout hmk hwr, he]
    simp [determineStatus]

/-- C4 (witness): a command that succeeds ends with the status `completed`,
exit code 0 and an empty error text. -/
theorem RunJob_final_status_witness :
    (sampleEnv okResult).mkdirAll (sampleEnv okResult).hostsDir = true ∧
    (sampleEnv okResult).writeFile (hostsFile (sampleEnv okResult) "job-1")
      (Join ["h1"] "\n") = true ∧
    (statusUpdates (RunJob (sampleEnv okResult) oneJobWorld "job-1" ["h1"] "echo ok" 30).log
        = statusUpdates oneJobWorld.log ++
          [("job-1", if (commandResult (sampleEnv okResult) "job-1" "echo ok" 30).err = none
            then "completed" else "error")] ∧
      ((commandResult (sampleEnv okResult) "job-1" "echo ok" 30).err = none →
        Call.insertResult "job-1"
          { Host := "all",
            Output := (commandResult (sampleEnv okResult) "job-1" "echo ok" 30).output,
            Error := "", ExitCode := 0,
            Duration := (commandResult (sampleEnv okResult) "job-1" "echo ok" 30).elapsedMs }
          ∈ (RunJob (sampleEnv okResult) oneJobWorld "job-1" ["h1"] "echo ok" 30).log)) :=
  ⟨rfl, rfl,
    RunJob_final_status (sampleEnv okResult) oneJobWorld "job-1" ["h1"] "echo ok" 30 rfl rfl⟩

/-- C5: on every path `RunJob` issues exactly one job status update, for the
given job id, with a status that is `completed` or `error` and never
`running`; a job that the store holds has that status afterwards. -/
theorem RunJob_one_terminal_update (env : Env) (w : World) (id : String) (hosts : List String)
    (command : String) (timeout : Int) :
    ∃ s : String, (s = "completed" ∨ s = "error") ∧ s ≠ "running" ∧
      statusUpdates (RunJob env w id hosts command timeout).log =
        statusUpdates w.log ++ [(id, s)] ∧
      (∀ job rs, GetJob w.db id = .ok (job, rs) →
        ∃ rs2, GetJob (RunJob env w id hosts command timeout).db id =
          .ok ({ job with Status := s, EndTime := some env.now }, rs2)) := by
  have hterm : ∀ s : String, (s = "completed" ∨ s = "error") → s ≠ "running" := by
    intro s hs
    rcases hs with rfl | rfl <;> decide
  by_cases hmk : env.mkdirAll env.hostsDir = false
  · refine ⟨"error", Or.inr rfl, by decide, ?_, ?_⟩
    · rw [RunJob_status_updates, if_pos hmk]
    · intro job rs hg
      rw [RunJob_db_early env w id hosts command timeout (Or.inl hmk)]
      exact ⟨rs, GetJob_after_update w.db id "error" env.now job rs hg⟩
  · by_cases hwr : env.writeFile (hostsFile env id) (Join hosts "\n") = false
    · refine ⟨"error", Or.inr rfl, by decide, ?_, ?_⟩
      · rw [RunJob_status_updates, if_neg hmk, if_pos hwr]
      · intro job rs hg
        rw [RunJob_db_early env w id hosts command timeout (Or.inr hwr)]
        exact ⟨rs, GetJob_after_update w.db id "error" env.now job rs hg⟩
    · have hs : (determineStatus (commandResult env id command timeout).err).1 = "completed" ∨
          (determineStatus (commandResult env id command timeout).err).1 = "error" := by
        rcases determineStatus_cases (commandResult env id command timeout).err with h | h
        · exact Or.inl h.1
        · exact Or.inr h.1
      refine ⟨(determineStatus (commandResult env id command timeout).err).1, hs,
        hterm _ hs, ?_, ?_⟩
      · rw [RunJob_status_updates, if_neg hmk, if_neg hwr]
      · intro job rs hg
        have hmk2 : env.mkdirAll env.hostsDir = true := by simpa using hmk
        have hwr2 : env.writeFile (hostsFile env id) (Join hosts "\n") = true := by
          simpa using hwr
        rw [RunJob_db_exec env w id hosts command timeout hmk2 hwr2]
        exact ⟨_, GetJob_after_update _ id _ env.now job _
          (GetJob_after_insertResult w.db id "all" _ _ _ _ job rs hg)⟩

/-- C5 (witness): the running job `job-1` after a `RunJob` whose hosts file
cannot be written. -/
theorem RunJob_one_terminal_update_witness :
    GetJob oneJobWorld.db "job-1" =
      .ok ({ ID := "job-1", Command := "echo ok", StartTime := 0, EndTime := none,
             Timeout := 30, Status := "running" }, []) ∧
    ∃ s : String, (s = "completed" ∨ s = "error") ∧ s ≠ "running" ∧
      statusUpdates (RunJob noWriteEnv oneJobWorld "job-1" ["h1"] "echo ok" 30).log =
        statusUpdates oneJobWorld.log ++ [("job-1", s)] ∧
      (∀ job rs, GetJob oneJobWorld.db "job-1" = .ok (job, rs) →
        ∃ rs2, GetJob (RunJob noWriteEnv oneJobWorld "job-1" ["h1"] "echo ok" 30).db "job-1" =
          .ok ({ job with Status := s, EndTime := some noWriteEnv.now }, rs2)) :=
  ⟨rfl, RunJob_one_terminal_update noWriteEnv oneJobWorld "job-1" ["h1"] "echo ok" 30⟩

/-- C3 (counterexample): a request with no host, no command and the timeout 0
is answered 200 with the job id and its job row is created; a request with a
command but no host is answered 200 as well and `parallel-ssh` is run for it. -/
theorem submit_validation_counterexample :
    ParseHosts blankRequest.Hosts = [] ∧ blankRequest.Command = "" ∧ blankRequest.Timeout ≤ 0 ∧
    (submit dbStore sampleReqEnv (sampleEnv okResult) emptyWorld (.ok blankRequest)).1 =
      { code := 200, field := "id", value := "job-1" } ∧
    GetJob (postRun dbStore sampleReqEnv emptyWorld.db (.ok blankRequest)).2.1 "job-1" =
      .ok ({ ID := "job-1", Command := "", StartTime := 0, EndTime := none, Timeout := 0,
             Status := "running" }, []) ∧
    ParseHosts noHostRequest.Hosts = [] ∧
    (submit dbStore sampleReqEnv (sampleEnv okResult) emptyWorld (.ok noHostRequest)).1 =
      { code := 200, field := "id", value := "job-1" } ∧
    execCalls (submit dbStore sampleReqEnv (sampleEnv okResult) emptyWorld
        (.ok noHostRequest)).2.log =
      [("parallel-ssh", ["-i", "-h", "/tmp/pssh-hosts/job-1.hosts", "uptime"])] := by
  refine ⟨by decide, rfl, by decide, rfl, rfl, by decide, rfl, by decide⟩

/-- C3 (amended): the submission path validates nothing beyond the binding of
the body.  Whenever the body binds and the store creates the job row and
inserts the hosts, the request is answered 200 with the job id and `RunJob` is
run for it, whatever the host list, the command and the timeout are; a body
that does not bind is answered 400, and then the store is left as it was and
nothing is run. -/
theorem submit_accepts_bound_request (store : Store) (renv : ReqEnv) (env : Env) (w : World)
    (req : RunRequest) (db1 db2 : Database)
    (hc : store.CreateJob w.db { ID := renv.newID, Command := req.Command, StartTime := renv.now,
                                 EndTime := none, Timeout := 0, Status := "running" } = (db1, none))
    (hi : store.InsertHosts db1 renv.newID (ParseHosts req.Hosts) = (db2, none)) :
    submit store renv env w (.ok req) =
        ({ code := 200, field := "id", value := renv.newID },
          RunJob env { w with db := db2 } renv.newID (ParseHosts req.Hosts) req.Command
            req.Timeout) ∧
      ∀ e : String, submit store renv env w (.error e) =
        ({ code := 400, field := "error", value := e }, w) := by
  constructor
  · simp only [submit, postRun, hc, hi]
  · intro e
    rfl

/-- C3 (witness): the blank request on the empty store. -/
theorem submit_accepts_bound_request_witness :
    dbStore.CreateJob emptyWorld.db
        { ID := sampleReqEnv.newID, Command := blankRequest.Command,
          StartTime := sampleReqEnv.now, EndTime := none, Timeout := 0, Status := "running" } =
      ((CreateJob emptyWorld.db "job-1" "" 0 0 "running").1, none) ∧
    dbStore.InsertHosts (CreateJob emptyWorld.db "job-1" "" 0 0 "running").1 sampleReqEnv.newID
        (ParseHosts blankRequest.Hosts) =
      ((CreateJob emptyWorld.db "job-1" "" 0 0 "running").1, none) ∧
    (submit dbStore sampleReqEnv (sampleEnv okResult) emptyWorld (.ok blankRequest) =
        ({ code := 200, field := "id", value := sampleReqEnv.newID },
          RunJob (sampleEnv okResult)
            { emptyWorld with db := (CreateJob emptyWorld.db "job-1" "" 0 0 "running").1 }
            sampleReqEnv.newID (ParseHosts blankRequest.Hosts) blankRequest.Command
            blankRequest.Timeout) ∧
      ∀ e : String, submit dbStore sampleReqEnv (sampleEnv okResult) emptyWorld (.error e) =
        ({ code := 400, field := "error", value := e }, emptyWorld)) :=
  ⟨rfl, rfl, submit_accepts_bound_request dbStore sampleReqEnv (sampleEnv okResult) emptyWorld
    blankRequest _ _ rfl rfl⟩

/-- C10: on an initialized database without a job or a result of the id,
after `CreateJob`, any sequence of `InsertResult` and `InsertHost` calls and
`UpdateJobStatus`, all of which succeed, `GetJob` returns the job with the id,
the command and the updated status, and exactly the results inserted for the
id, in insertion order. -/
theorem GetJob_round_trip (t : Tables) (id cmd : String) (start : Time) (timeout : Int)
    (s0 s1 : String) (endT : Time) (ops : List StoreOp)
    (hfresh : ∀ j ∈ t.jobs, j.ID ≠ id) (hnores : ∀ r ∈ t.results, r.job_id ≠ id) :
    (CreateJob (some t) id cmd start timeout s0).2 = none ∧
    (UpdateJobStatus (ops.foldl StoreOp.apply (CreateJob (some t) id cmd start timeout s0).1)
      id s1 endT).2 = none ∧
    GetJob (UpdateJobStatus (ops.foldl StoreOp.apply (CreateJob (some t) id cmd start timeout s0).1)
      id s1 endT).1 id =
      .ok ({ ID := id, Command := cmd, StartTime := start, EndTime := some endT,
             Timeout := timeout, Status := s1 }, insertedFor id ops) := by
  have hany : (t.jobs.any (fun j => j.ID == id)) = false := by
    rw [List.any_eq_false]
    intro j hj
    simpa using hfresh j hj
  obtain ⟨job0, hjob0⟩ : ∃ j : Job, j =
      { ID := id, Command := cmd, StartTime := start, EndTime := none, Timeout := timeout,
        Status := s0 } :=
    ⟨_, rfl⟩
  have hid0 : (job0.ID == id) = true := by
    rw [hjob0]
    simp
  have hcreate : CreateJob (some t) id cmd start timeout s0 =
      (some { t with jobs := t.jobs ++ [job0] }, none) := by
    simp [CreateJob, hany, hjob0]
  obtain ⟨t2, h1, h2, h3⟩ := ops_fold id ops { t with jobs := t.jobs ++ [job0] }
  have hres0 : resultsOf (some { t with jobs := t.jobs ++ [job0] }) id = [] := by
    simp only [resultsOf, List.map_eq_nil_iff, List.filter_eq_nil_iff]
    intro r hr
    simpa using hnores r hr
  have hfind : t2.jobs.find? (fun x => x.ID == id) = some job0 := by
    have hnone : t.jobs.find? (fun x => x.ID == id) = none := by
      rw [List.find?_eq_none]
      intro j hj
      simpa using hfresh j hj
    rw [h2]
    simp [List.find?_append, hnone, List.find?_cons, hid0]
  have hget : GetJob (some t2) id = .ok (job0, insertedFor id ops) := by
    have : resultsOf (some t2) id = insertedFor id ops := by rw [h3, hres0, List.nil_append]
    simp only [GetJob, hfind]
    simp only [resultsOf] at this
    rw [this]
  rw [hcreate]
  refine ⟨rfl, ?_, ?_⟩
  · show (UpdateJobStatus (ops.foldl StoreOp.apply (some _)) id s1 endT).2 = none
    rw [h1]
    rfl
  · show GetJob (UpdateJobStatus (ops.foldl StoreOp.apply (some _)) id s1 endT).1 id = _
    rw [h1, GetJob_after_update (some t2) id s1 endT _ _ hget, hjob0]

/-- C10 (witness): the calls of `TestJobLifecycle` for the job `j1`, on a
database that holds another job `j0` with a result, a result for `j0` being
inserted in between. -/
theorem GetJob_round_trip_witness :
    (∀ j ∈ sampleTables.jobs, j.ID ≠ "j1") ∧ (∀ r ∈ sampleTables.results, r.job_id ≠ "j1") ∧
    (CreateJob (some sampleTables) "j1" "echo hello" 0 10 "running").2 = none ∧
    (UpdateJobStatus (sampleOps.foldl StoreOp.apply
      (CreateJob (some sampleTables) "j1" "echo hello" 0 10 "running").1)
      "j1" "completed" 5).2 = none ∧
    GetJob (UpdateJobStatus (sampleOps.foldl StoreOp.apply
      (CreateJob (some sampleTables) "j1" "echo hello" 0 10 "running").1)
      "j1" "completed" 5).1 "j1" =
      .ok ({ ID := "j1", Command := "echo hello", StartTime := 0, EndTime := some 5,
             Timeout := 10, Status := "completed" },
           [{ Host := "all", Output := "output", Error := "", ExitCode := 0, Duration := 100 }]) :=
  ⟨by decide, by decide,
    GetJob_round_trip sampleTables "j1" "echo hello" 0 10 "running" "completed" 5 sampleOps
      (by decide) (by decide)⟩
